import Mathlib

/-!
Verification development for the EU clinical-trials scraper.

The Python source is shallowly embedded: parsed documents (cards, protocol
documents, results documents) are values of a JSON-like tree type `Json`
(the parsers produce nested dictionaries / lists / strings / `None`);
partial Python operations (key lookups, integer indexing, `len`, attribute
access) are modelled with `Option`, where `none` means the Python code
raises an exception at that point.
-/

namespace EUCTR

/-- JSON-like tree of parsed document data: Python `None`, `str`, `list`,
`dict` (insertion-ordered association list with string keys, as produced by
the HTML parsers). -/
inductive Json where
  | null : Json
  | str (s : String) : Json
  | arr (elems : List Json) : Json
  | obj (fields : List (String × Json)) : Json

/-- First-match association lookup: Python `d[k]` / `k in d` on a dict. -/
def lookupJ : List (String × Json) → String → Option Json
  | [], _ => none
  | (k', v) :: rest, k => if k' = k then some v else lookupJ rest k

/-- Python `d[k]` for a string key `k`: value when `d` is a dict containing
`k`; `none` (KeyError / TypeError) otherwise. -/
def pyGet (j : Json) (k : String) : Option Json :=
  match j with
  | .obj fs => lookupJ fs k
  | _ => none

/-- Python `v[0]` with an integer index: head of a list (IndexError when
empty), first character of a string, exception on anything else (a dict has
no integer key here, `None` is not subscriptable). -/
def pyIndex0 : Json → Option Json
  | .arr (x :: _) => some x
  | .arr [] => none
  | .str s =>
    match s.toList with
    | c :: _ => some (.str (String.mk [c]))
    | [] => none
  | _ => none

/-- Python `len(v)`: defined for lists, strings and dicts. -/
def pyLen : Json → Option Nat
  | .arr xs => some xs.length
  | .str s => some s.length
  | .obj fs => some fs.length
  | _ => none

/-- Python truthiness of a parsed value. -/
def truthy : Json → Bool
  | .null => false
  | .str s => !s.isEmpty
  | .arr xs => !xs.isEmpty
  | .obj fs => !fs.isEmpty

/-- Truthiness of a Python variable that may hold `None` (`none` here). -/
def truthyO : Option Json → Bool
  | none => false
  | some v => truthy v

/-- `pat` occurs as a contiguous substring of `hay` (Python `pat in hay`
on strings, and `re.search` for a metacharacter-free pattern). -/
def listContains (hay pat : List Char) : Bool :=
  (List.range (hay.length + 1)).any fun i => pat.isPrefixOf (hay.drop i)

/-- Python `pat in hay` for strings. -/
def strContains (hay pat : String) : Bool :=
  listContains hay.toList pat.toList

/-- Case-insensitive substring match: Python
`re.search(keyword, key, re.IGNORECASE)` for a metacharacter-free keyword
(the only keyword used by the code is the literal `"Phase"`). -/
def ciContains (key keyword : String) : Bool :=
  listContains (key.toList.map Char.toLower) (keyword.toList.map Char.toLower)

/-- Python `x in j` for a string `x`: key membership in a dict, element
membership in a list, substring test on a string; TypeError otherwise. -/
def pyContains (j : Json) (k : String) : Option Bool :=
  match j with
  | .obj fs => some ((lookupJ fs k).isSome)
  | .arr xs => some (xs.any fun x => match x with | .str s => s = k | _ => false)
  | .str s => some (strContains s k)
  | .null => none

/-- The scalar/list normalization idiom `v[0] if isinstance(v, list) else v`
(IndexError on an empty list). -/
def scalarize : Json → Option Json
  | .arr (x :: _) => some x
  | .arr [] => none
  | v => some v

/-! ## app/constants.py and the flat row -/

/-- `COLUMNS` from `app/constants.py`: the 31 declared schema columns. -/
def COLUMNS : List String :=
  ["trial_id", "title", "url", "acronym", "status", "summary", "results",
   "conditions", "interventions", "primary_outcome", "secondary_outcome",
   "other_outcome", "sponsor", "collaborators", "sex", "age", "phases",
   "enrollment", "funder_type", "study_type", "study_design", "other_ids",
   "start_date", "primary_completion_date", "completion_date", "first_posted",
   "results_first_posted", "last_update_posted", "locations",
   "study_documents", "protocols"]

/-- A flat row: a Python dict with insertion order, string keys. -/
def Row : Type := List (String × Json)

/-- Python dict assignment `row[k] = v`: replace in place when `k` is
already a key (keeping its position), append at the end otherwise. -/
def setK : Row → String → Json → Row
  | [], k, v => [(k, v)]
  | (k', v') :: rest, k, v =>
    if k' = k then (k', v) :: rest else (k', v') :: setK rest k v

/-- `row_data = {column: None for column in COLUMNS}`. -/
def initRow : Row := COLUMNS.map fun c => (c, Json.null)

/-! ## app/utils/data_utils.py: card extraction -/

/-- `get_trial_data_from_card(card_data)`: builds the minimal card row.
Each Python subscript `card_data[...]` raises KeyError when absent, hence
the `Option`. -/
def get_trial_data_from_card (card_data : Json) : Option Row := do
  let row : Row := initRow
  let v ← pyGet card_data "trial_id"
  let row := setK row "trial_id" v
  let v ← pyGet card_data "full_title"
  let row := setK row "title" v
  let v ← pyGet card_data "trial_results_link"
  let row := setK row "url" v
  let v ← pyGet card_data "population_age"
  let row := setK row "age" v
  let v ← pyGet card_data "gender"
  let row := setK row "sex" v
  let v ← pyGet card_data "start_date"
  let row := setK row "start_date" v
  let v ← pyGet card_data "sponsor_name"
  let row := setK row "sponsor" v
  let v ← pyGet card_data "medical_condition"
  let row := setK row "conditions" v
  let v ← pyGet card_data "disease"
  let row := setK row "disease" v
  let v ← pyGet card_data "trial_protocols"
  let row := setK row "protocols" v
  pure row

/-- `extract_card_data(trial_data, row_data)`: card step of `update_record`.
The final line `row_data["status"] = card_data["trial_protocols"][0]["protocol_status"]`
indexes the protocol list without a guard. -/
def extract_card_data (trial_data : Json) (row : Row) : Option Row := do
  let card ← pyGet trial_data "card"
  let v ← pyGet card "trial_id"
  let row := setK row "trial_id" v
  let v ← pyGet card "full_title"
  let row := setK row "title" v
  let v ← pyGet card "trial_results_link"
  let row := setK row "url" v
  let v ← pyGet card "population_age"
  let row := setK row "age" v
  let v ← pyGet card "gender"
  let row := setK row "sex" v
  let v ← pyGet card "start_date"
  let row := setK row "start_date" v
  let v ← pyGet card "sponsor_name"
  let row := setK row "sponsor" v
  let v ← pyGet card "medical_condition"
  let row := setK row "conditions" v
  let v ← pyGet card "disease"
  let row := setK row "disease" v
  let tp ← pyGet card "trial_protocols"
  let row := setK row "protocols" tp
  let firstProtocol ← pyIndex0 tp
  let st ← pyGet firstProtocol "protocol_status"
  pure (setK row "status" st)

/-! ## app/utils/data_utils.py: the nested-value extraction engine -/

/-- `search_for_key(json_data, target_key)`: depth-first search; a dict
entry with the target key returns its value immediately (even when that
value is `None`), otherwise the search recurses, treating a `None` result
as "keep looking". The Python function conflates "found `None`" with
"not found": `Json.null` is the absent marker. -/
def search_for_key : Json → String → Json
  | .obj [], _ => .null
  | .obj ((k, v) :: rest), target =>
    if k = target then v
    else
      match search_for_key v target with
      | .null => search_for_key (.obj rest) target
      | r => r
  | .arr [], _ => .null
  | .arr (x :: rest), target =>
    match search_for_key x target with
    | .null => search_for_key (.arr rest) target
    | r => r
  | _, _ => .null

/-- The recursive worker of `collect_keys_with_keyword`: every dict entry
whose key matches the keyword case-insensitively is appended (before
recursing into its value), in depth-first order. -/
def collectGo : Json → String → List (String × Json)
  | .obj [], _ => []
  | .obj ((k, v) :: rest), kw =>
    (if ciContains k kw then [(k, v)] else []) ++ collectGo v kw ++ collectGo (.obj rest) kw
  | .arr [], _ => []
  | .arr (x :: rest), kw => collectGo x kw ++ collectGo (.arr rest) kw
  | _, _ => []

/-- `collect_keys_with_keyword(json_data, keyword)`: returns the collected
`{key: value}` entries, or `None` when there are none. -/
def collect_keys_with_keyword (json_data : Json) (keyword : String) :
    Option (List (String × Json)) :=
  match collectGo json_data keyword with
  | [] => none
  | l => some l

/-- A path segment of `safe_get`: the code passes both string keys and the
integer index `0`. -/
inductive JKey where
  | str (s : String) : JKey
  | idx (n : Nat) : JKey

/-- `safe_get(d, keys)`: sequential descent, where each step requires
`isinstance(d, dict) and key in d`; any other shape (including an integer
index into a list) returns `None`. -/
def safe_get : Json → List JKey → Option Json
  | d, [] => some d
  | .obj fs, .str k :: rest =>
    match lookupJ fs k with
    | some v => safe_get v rest
    | none => none
  | _, _ :: _ => none

/-! ## app/utils/data_utils.py: protocol / phase / results extraction -/

/-- One protocol-field copy of `extract_protocol_data`, e.g.
`title = protocol_info.get("Full title of the trial");`
`row_data["title"] = title[0] if isinstance(title, list) else title`.
`.get` requires a dict (AttributeError otherwise); a missing field yields
Python `None`, which is then stored as-is. -/
def copyGetField (src : Json) (srcKey dstKey : String) (row : Row) : Option Row :=
  match src with
  | .obj fs =>
    match lookupJ fs srcKey with
    | none => some (setK row dstKey .null)
    | some v => (scalarize v).map (setK row dstKey)
  | _ => none

/-- One guarded protocol-field copy, e.g.
`if "Trial Status" in summary: ... row_data["status"] = ...` where the
membership test itself can raise (TypeError on a non-container). -/
def copyIfField (src : Json) (srcKey dstKey : String) (row : Row) : Option Row := do
  let b ← pyContains src srcKey
  if b then do
    let v ← pyGet src srcKey
    let v ← scalarize v
    pure (setK row dstKey v)
  else
    pure row

/-- `extract_protocol_data(trial_data, row_data)`: reads the three protocol
sections through `safe_get` with the paths
`["protocols", 0, "A. Protocol Information"]`, `["protocols", 0, "summary"]`
and `["protocols", 0, "B. Sponsor Information"]`, each guarded by a
truthiness test. -/
def extract_protocol_data (trial_data : Json) (row : Row) : Option Row := do
  let protocol_info := safe_get trial_data [.str "protocols", .idx 0, .str "A. Protocol Information"]
  let row ←
    if truthyO protocol_info then
      copyGetField (protocol_info.getD .null) "Full title of the trial" "title" row
    else
      pure row
  let summary := safe_get trial_data [.str "protocols", .idx 0, .str "summary"]
  let row ←
    if truthyO summary then do
      let s := summary.getD .null
      let row ← copyIfField s "Trial Status" "status" row
      let row ← copyIfField s "Clinical Trial Type" "study_type" row
      copyIfField s "Date on which this record was first entered in the EudraCT database" "first_posted" row
    else
      pure row
  let sponsor_info := safe_get trial_data [.str "protocols", .idx 0, .str "B. Sponsor Information"]
  if truthyO sponsor_info then do
    let s := sponsor_info.getD .null
    let row ← copyIfField s "Country" "locations" row
    copyIfField s "Status of the sponsor" "funder_type" row
  else
    pure row

/-- The de-duplication fold of `extract_phase_data`: for each collected
entry (in order), a key not seen before stores `value[0]` (Python integer
indexing, which can raise); later occurrences of the same key are
discarded. -/
def dedupFirst (acc : List (String × Json)) : List (String × Json) → Option (List (String × Json))
  | [] => some acc
  | (k, v) :: rest =>
    if (lookupJ acc k).isSome then dedupFirst acc rest
    else
      match pyIndex0 v with
      | some v0 => dedupFirst (acc ++ [(k, v0)]) rest
      | none => none

/-- `extract_phase_data(trial_data, row_data)`: collects every key matching
"Phase" over the whole trial aggregate, de-duplicates keeping `value[0]` of
the first occurrence per distinct key, and stores the singleton-dict list
in `row_data["phases"]`. -/
def extract_phase_data (trial_data : Json) (row : Row) : Option Row :=
  match collect_keys_with_keyword trial_data "Phase" with
  | none => some row
  | some phases =>
    (dedupFirst [] phases).map fun uniq =>
      setK row "phases" (.arr (uniq.map fun e => .obj [e]))

/-- One doubly-guarded field copy of `extract_results_data`, e.g.
`if "results_information" in current and "This version publication date" in`
`current["results_information"]: row_data["last_update_posted"] = ...` —
the conjunction short-circuits, both membership tests can raise, and the
copied value is scalar/list-normalized. -/
def copyNestedIfField (current : Json) (k1 k2 dk : String) (row : Row) : Option Row := do
  let b1 ← pyContains current k1
  if b1 then do
    let ri ← pyGet current k1
    let b2 ← pyContains ri k2
    if b2 then do
      let v ← pyGet ri k2
      let v2 ← scalarize v
      pure (setK row dk v2)
    else
      pure row
  else
    pure row

/-- One truthiness-guarded deep-search copy of `extract_results_data`, e.g.
`primary_completion_date = search_for_key(current, "Primary completion date")`
`if primary_completion_date: row_data["primary_completion_date"] = ...`
(Python truthiness, so an empty string or empty list is skipped too). -/
def copyTruthySearch (current : Json) (key dk : String) (row : Row) : Option Row :=
  if truthy (search_for_key current key) then
    (scalarize (search_for_key current key)).map (setK row dk)
  else
    some row

/-- The portion of `extract_results_data` operating on the selected current
version `current` (lines 144-162 of data_utils.py). The first line
`if "global_end_date" in current["summary"]:` subscripts `current` before
testing, so a missing summary raises. -/
def extractCurrentVersion (trial_data current : Json) (row : Row) : Option Row := do
  let summaryJ ← pyGet current "summary"
  let row ← copyIfField summaryJ "global_end_date" "completion_date" row
  let row ← copyNestedIfField current "results_information"
    "This version publication date" "last_update_posted" row
  let row ← copyNestedIfField current "results_information"
    "First version publication date" "results_first_posted" row
  let row ← copyTruthySearch current "Primary completion date" "primary_completion_date" row
  let row ← copyTruthySearch current "Worldwide total number of subjects" "enrollment" row
  extract_phase_data trial_data row

/-- `extract_results_data(trial_data, row_data)`:
`current = [x for x in trial_data["results"] if "current" in x][0]` —
iterate the keys of the results mapping (the results documents produced by
the parser are mappings) in order, keep those containing the substring
`"current"` (case-sensitive), and take the first; an empty filter result
makes the `[0]` raise IndexError (`none`). Then
`current = trial_data["results"][current]`. -/
def extract_results_data (trial_data : Json) (row : Row) : Option Row := do
  let results ← pyGet trial_data "results"
  match results with
  | .obj fs =>
    match (fs.map Prod.fst).find? (fun k => strContains k "current") with
    | none => none
    | some ck => do
      let current ← lookupJ fs ck
      extractCurrentVersion trial_data current row
  | _ => none

/-- `update_record(trial_data)`: the full merge — card step, early return
when the fetched protocol-document list is empty, protocol step, early
return when no results document is attached, results step. -/
def update_record (trial_data : Json) : Option Row := do
  let row ← extract_card_data trial_data initRow
  let protocols ← pyGet trial_data "protocols"
  let n ← pyLen protocols
  if n = 0 then
    pure row
  else do
    let row ← extract_protocol_data trial_data row
    match trial_data with
    | .obj fs =>
      if ((fs.map Prod.fst).contains "results") = false then
        pure row
      else
        extract_results_data trial_data row
    | _ => none

/-! ## app/utils/page_fetcher.py: the retry engine

`_make_request(session, url, attempt=1, max_attempts=7)` is embedded with
the network abstracted as `outcome : Nat → Except String String`, giving
for each (1-indexed) attempt number either the fetched document (a 200
response) or the error message of that attempt's failure (non-200 status or
transport error). The result is paired with the total number of seconds
slept by `await asyncio.sleep(2 ** attempt)` calls. -/

/-- The terminal fetch-error message raised after exhausting attempts. -/
def fetchFailMsg (url : String) (maxAttempts : Nat) (lastErr : String) : String :=
  "Failed to fetch " ++ url ++ " after " ++ toString maxAttempts ++
    " attempts. Last error: " ++ lastErr

/-- `_make_request`: on failure at `attempt < max_attempts`, sleep
`2 ** attempt` seconds and retry with `attempt + 1`; otherwise raise the
terminal error naming the URL and `max_attempts`. -/
def make_request (url : String) (outcome : Nat → Except String String)
    (attempt maxAttempts : Nat) : Except String String × Nat :=
  match outcome attempt with
  | .ok doc => (.ok doc, 0)
  | .error e =>
    if _h : attempt < maxAttempts then
      let r := make_request url outcome (attempt + 1) maxAttempts
      (r.1, 2 ^ attempt + r.2)
    else
      (.error (fetchFailMsg url maxAttempts e), 0)
termination_by maxAttempts - attempt

/-! ## app/eu_scraper.py: the per-trial loop and the pagination resolver -/

/-- The per-trial loop shared by `scrape_by_page` and `scrape_by_date`
(lines 128-140 / 76-88 of eu_scraper.py). Each list entry is the outcome of
`await self.get_trial_data(card)` for one card: `none` when that call
caught an exception internally and returned `None` (the loop logs and
`continue`s), `some td` when it returned a trial aggregate. The loop then
runs `update_record(trial_data)` with no surrounding try/except, so an
exception there propagates and aborts the whole loop (`Except.error`).
The persistence collaborators (`push_list_to_dynamodb`,
`upload_jsons_to_s3`) are external interfaces, modeled as succeeding.
On completion the loop reports the number of successfully processed
trials. -/
def scrapeLoop : List (Option Json) → Except Unit Nat
  | [] => .ok 0
  | none :: rest => scrapeLoop rest
  | some td :: rest =>
    match update_record td with
    | none => .error ()
    | some _ =>
      match scrapeLoop rest with
      | .error e => .error e
      | .ok n => .ok (n + 1)

/-- Python whitespace (the characters matched by `\s` and stripped by
`str.strip()`). -/
def isPyWs (c : Char) : Bool :=
  c = ' ' || c = '\t' || c = '\n' || c = '\r' || c = '\x0b' || c = '\x0c'

/-- `str.strip()`. -/
def pyStrip (l : List Char) : List Char :=
  ((l.dropWhile isPyWs).reverse.dropWhile isPyWs).reverse

/-- `str.replace("  ", "")`: delete non-overlapping pairs of consecutive
spaces, scanning left to right. -/
def rmDoubleSpace : List Char → List Char
  | ' ' :: ' ' :: rest => rmDoubleSpace rest
  | c :: rest => c :: rmDoubleSpace rest
  | [] => []

/-- Worker for `re.sub(r'\s+', ' ', text)`: each maximal whitespace run is
replaced by a single space; the flag records being inside a run. -/
def collapseWsAux : Bool → List Char → List Char
  | _, [] => []
  | inRun, c :: rest =>
    if isPyWs c then
      if inRun then collapseWsAux true rest
      else ' ' :: collapseWsAux true rest
    else
      c :: collapseWsAux false rest

/-- The text normalization of `get_num_pages_and_results`:
`re.sub(r'\s+', ' ', data_section.text.strip().replace("  ", "").replace(",", "")).strip()`. -/
def normalizeSummary (s : String) : List Char :=
  pyStrip (collapseWsAux false ((rmDoubleSpace (pyStrip s.toList)).filter (fun c => c ≠ ',')))

/-- The literal part `" result(s) found"` of the pagination pattern. -/
def litFound : List Char := " result(s) found".toList

/-- The literal `"page "` of the pagination pattern. -/
def litPage : List Char := "page ".toList

/-- The literal `" of "` of the pagination pattern. -/
def litOf : List Char := " of ".toList

/-- `int()` of a decimal digit string. -/
def digitsVal (cs : List Char) : Nat :=
  cs.foldl (fun a c => 10 * a + (c.toNat - 48)) 0

/-- Leftmost match of the pattern head `(\d+) result\(s\) found`: at each
start position a greedy digit run must be followed by the literal; returns
the run's value and the remaining text after the literal. (Backtracking
inside the run cannot help, since the literal starts with a non-digit.) -/
def findPart1 : List Char → Option (Nat × List Char)
  | [] => none
  | c :: cs =>
    let run := (c :: cs).takeWhile Char.isDigit
    if !run.isEmpty && litFound.isPrefixOf ((c :: cs).drop run.length) then
      some (digitsVal run, (c :: cs).drop (run.length + litFound.length))
    else
      findPart1 cs

/-- Match of the pattern tail `page \d+ of (\d+)` at position `j` of the
remaining text; returns the captured second number. -/
def part2At (rem : List Char) (j : Nat) : Option Nat :=
  let s := rem.drop j
  if litPage.isPrefixOf s then
    let s2 := s.drop litPage.length
    let d1 := s2.takeWhile Char.isDigit
    if !d1.isEmpty && litOf.isPrefixOf (s2.drop d1.length) then
      let d2 := (s2.drop (d1.length + litOf.length)).takeWhile Char.isDigit
      if !d2.isEmpty then some (digitsVal d2) else none
    else
      none
  else
    none

/-- The greedy `.*` between the two pattern parts selects the last position
where the tail matches. -/
def findPart2 (rem : List Char) : Option Nat :=
  ((List.range (rem.length + 1)).filterMap (part2At rem)).getLast?

/-- `re.search(r"(\d+) result\(s\) found.*page \d+ of (\d+)", text)` on
normalized text (which contains no newline, every whitespace run having
been collapsed to a single space): yields `(N, Total)` = the two captured
groups. The overall match starts at the leftmost position where the head
matches and the tail occurs in the remainder; head positions are scanned
in order, and a later head position sees a suffix of the earlier
remainder, so the first head match decides. -/
def matchSummary (cs : List Char) : Option (Nat × Nat) := do
  let (n, rem) ← findPart1 cs
  let t ← findPart2 rem
  pure (n, t)

/-- `get_num_pages_and_results(initial_search_page)`, abstracted over the
HTML step: `region` is the text of the located results-summary region
(the `outcome` div inside `tabs-1`), `none` when that region is absent
(the code then returns `None`). On a match the code returns
`(int(pages), int(results))` — the pair `(Total, N)`; with no match it
returns `None`. -/
def get_num_pages_and_results (region : Option String) : Option (Nat × Nat) :=
  match region with
  | none => none
  | some s =>
    match matchSummary (normalizeSummary s) with
    | none => none
    | some (n, t) => some (t, n)

/-! ## Spec-side definitions

Definitions in this section follow the specification's words, for
comparison with the embedded source functions. -/

/-- Per the spec's words for `findFirst`: depth-first pre-order traversal
returning the value of the first mapping entry whose key equals the target
exactly — with `absent` (`none`) kept distinct from a null value. -/
def findFirstSpec : Json → String → Option Json
  | .obj [], _ => none
  | .obj ((k, v) :: rest), t =>
    if k = t then some v
    else
      match findFirstSpec v t with
      | some r => some r
      | none => findFirstSpec (.obj rest) t
  | .arr [], _ => none
  | .arr (x :: rest), t =>
    match findFirstSpec x t with
    | some r => some r
    | none => findFirstSpec (.arr rest) t
  | _, _ => none

/-- Per the spec's words for `safeGet`: sequential indexed/keyed descent,
resolving a string key in a mapping and an integer index in a sequence. -/
def safeGetSpecIndexed : Json → List JKey → Option Json
  | d, [] => some d
  | .obj fs, .str k :: rest =>
    match lookupJ fs k with
    | some v => safeGetSpecIndexed v rest
    | none => none
  | .arr xs, .idx i :: rest =>
    match xs.get? i with
    | some v => safeGetSpecIndexed v rest
    | none => none
  | _, _ :: _ => none

/-- The keyed descent chain described by the code's `safe_get`: each step
resolves a string key in a mapping. -/
inductive ReachesByKeys : Json → List JKey → Json → Prop where
  | nil (d : Json) : ReachesByKeys d [] d
  | step {fs : List (String × Json)} {rest : List JKey} {v w : Json} (k : String)
      (hk : lookupJ fs k = some v) (hrest : ReachesByKeys v rest w) :
      ReachesByKeys (.obj fs) (.str k :: rest) w

/-- All mapping entries of a tree, in depth-first pre-order. -/
def preorderEntries : Json → List (String × Json)
  | .obj [] => []
  | .obj ((k, v) :: rest) => (k, v) :: (preorderEntries v ++ preorderEntries (.obj rest))
  | .arr [] => []
  | .arr (x :: rest) => preorderEntries x ++ preorderEntries (.arr rest)
  | _ => []

/-- Trees without null values. -/
def noNull : Json → Bool
  | .null => false
  | .str _ => true
  | .arr [] => true
  | .arr (x :: rest) => noNull x && noNull (.arr rest)
  | .obj [] => true
  | .obj ((_, v) :: rest) => noNull v && noNull (.obj rest)

/-- Per the spec's words for the pagination precondition: the
results-summary text "after collapsing internal whitespace and stripping
thousands-separators". -/
def claimNormalize (s : String) : List Char :=
  pyStrip (collapseWsAux false (s.toList.filter (fun c => c ≠ ',')))

/-! ## Helper lemmas about rows and lookups -/

theorem lookupJ_setK_self (r : Row) (k : String) (v : Json) :
    lookupJ (setK r k v) k = some v := by
  induction r with
  | nil => simp [setK, lookupJ]
  | cons e rest ih =>
    obtain ⟨k', v'⟩ := e
    by_cases h : k' = k <;> simp [setK, lookupJ, h, ih]

theorem lookupJ_setK_ne (r : Row) (k k' : String) (v : Json) (h : k' ≠ k) :
    lookupJ (setK r k' v) k = lookupJ r k := by
  induction r with
  | nil => simp [setK, lookupJ, h]
  | cons e rest ih =>
    obtain ⟨k'', v''⟩ := e
    by_cases h2 : k'' = k' <;> simp [setK, lookupJ, h2, ih]
    · subst h2
      simp [h, lookupJ]

theorem setK_keys_of_mem (r : Row) (k : String) (v : Json)
    (h : k ∈ r.map Prod.fst) : (setK r k v).map Prod.fst = r.map Prod.fst := by
  induction r with
  | nil => simp at h
  | cons e rest ih =>
    obtain ⟨k', v'⟩ := e
    by_cases h2 : k' = k
    · simp [setK, h2]
    · simp [List.map_cons] at h
      rcases h with h | h

      · exact absurd h.symm h2
      · obtain ⟨x, hx⟩ := h
        simp [setK, h2, ih (List.mem_map.mpr ⟨(k, x), hx, rfl⟩)]

theorem setK_keys_of_not_mem (r : Row) (k : String) (v : Json)
    (h : ¬ k ∈ r.map Prod.fst) : (setK r k v).map Prod.fst = r.map Prod.fst ++ [k] := by
  induction r with
  | nil => simp [setK]
  | cons e rest ih =>
    obtain ⟨k', v'⟩ := e
    simp [List.map_cons] at h
    push_neg at h
    simp [setK, Ne.symm h.1, ih (by simpa using h.2)]

/-- Rewriting form of `setK_keys_of_mem` to chain write steps. -/
theorem keys_setK_eq (r : Row) (k : String) (v : Json) (ks : List String)
    (hr : r.map Prod.fst = ks) (hk : k ∈ ks) : (setK r k v).map Prod.fst = ks := by
  subst hr
  exact setK_keys_of_mem r k v hk

/-- Rewriting form of `setK_keys_of_not_mem`. -/
theorem keys_setK_app (r : Row) (k : String) (v : Json) (ks : List String)
    (hr : r.map Prod.fst = ks) (hk : ¬ k ∈ ks) :
    (setK r k v).map Prod.fst = ks ++ [k] := by
  subst hr
  exact setK_keys_of_not_mem r k v hk

theorem initRow_keys : initRow.map Prod.fst = COLUMNS := by
  simp [initRow, List.map_map]
  rfl

/-! ## Concrete fixtures -/

/-- A card record with every field the code reads, and one protocol entry
whose status is "ongoing". -/
def cardFull : Json := .obj
  [("trial_id", .str "2020-001"),
   ("full_title", .str "A Study"),
   ("trial_results_link", .str "https://reg/results/2020-001"),
   ("population_age", .str "Adults"),
   ("gender", .str "Male and Female"),
   ("start_date", .str "2020-01-01"),
   ("sponsor_name", .str "Acme"),
   ("medical_condition", .str "Condition X"),
   ("disease", .str "10012345"),
   ("trial_protocols", .arr
     [.obj [("protocol_url", .str "https://reg/p1"),
            ("protocol_status", .str "ongoing")]])]

/-- A card record whose protocol list is empty. -/
def cardNoProtocols : Json := .obj
  [("trial_id", .str "2020-002"),
   ("full_title", .str "B Study"),
   ("trial_results_link", .str "https://reg/results/2020-002"),
   ("population_age", .str "Adults"),
   ("gender", .str "Female"),
   ("start_date", .str "2020-02-01"),
   ("sponsor_name", .str "Acme"),
   ("medical_condition", .str "Condition Y"),
   ("disease", .str "10054321"),
   ("trial_protocols", .arr [])]

/-- A protocol document whose summary says the trial is completed. -/
def protDocCompleted : Json := .obj
  [("url", .str "https://reg/p1"),
   ("A. Protocol Information", .obj
     [("Full title of the trial", .arr [.str "Official Full Title"])]),
   ("summary", .obj
     [("Trial Status", .arr [.str "completed"]),
      ("Clinical Trial Type", .arr [.str "EEA CTA"]),
      ("Date on which this record was first entered in the EudraCT database",
        .arr [.str "2020-02-02"])]),
   ("B. Sponsor Information", .obj
     [("Country", .arr [.str "Germany"]),
      ("Status of the sponsor", .arr [.str "Non-Commercial"])])]

/-- Trial aggregate: card says "ongoing", attached protocol document says
"completed"; no results document. -/
def tdC1 : Json := .obj
  [("card", cardFull),
   ("trial_id", .str "2020-001"),
   ("protocols", .arr [protDocCompleted])]

/-- Trial aggregate whose card has an empty protocol list. -/
def tdEmptyProtocols : Json := .obj
  [("card", cardNoProtocols),
   ("trial_id", .str "2020-002"),
   ("protocols", .arr [])]

/-! ## C5: safe_get semantics -/

theorem safe_get_idx_head (d : Json) (n : Nat) (rest : List JKey) :
    safe_get d (.idx n :: rest) = none := by
  cases d <;> rfl

theorem safe_get_some_iff (keys : List JKey) (d v : Json) :
    safe_get d keys = some v ↔ ReachesByKeys d keys v := by
  induction keys generalizing d with
  | nil =>
    constructor
    · intro h
      have hd : d = v := by simpa [safe_get] using h
      subst hd
      exact .nil d
    · intro h
      cases h
      simp [safe_get]
  | cons k rest ih =>
    cases k with
    | idx n =>
      rw [safe_get_idx_head]
      simp only [false_iff, reduceCtorEq]
      intro h
      cases h
    | str s =>
      cases d with
      | obj fs =>
        constructor
        · intro h
          simp only [safe_get] at h
          cases hl : lookupJ fs s with
          | none => rw [hl] at h; simp at h
          | some w =>
            rw [hl] at h
            exact .step s hl ((ih w).mp h)
        · intro h
          cases h with
          | step _ hk hrest =>
            simp only [safe_get, hk]
            exact (ih _).mpr hrest
      | null =>
        simp only [safe_get, false_iff, reduceCtorEq]
        intro h
        cases h
      | str s2 =>
        simp only [safe_get, false_iff, reduceCtorEq]
        intro h
        cases h
      | arr xs =>
        simp only [safe_get, false_iff, reduceCtorEq]
        intro h
        cases h

/-- C5 (amended): `safe_get` descends through mappings only: it returns
exactly the values reachable by a chain of string-key lookups through
mappings; any integer-index step (even into a sequence), any missing key,
and any non-mapping node yield `none`; the function is total (never
raises). -/
theorem c5_safe_get_mapping_descent (d : Json) (keys : List JKey) :
    (∀ v, safe_get d keys = some v ↔ ReachesByKeys d keys v) ∧
    (∀ n rest, safe_get d (JKey.idx n :: rest) = none) ∧
    (∀ fs k rest, d = .obj fs → lookupJ fs k = none →
      safe_get d (JKey.str k :: rest) = none) ∧
    (∀ k rest, (∀ fs, d ≠ .obj fs) → safe_get d (k :: rest) = none) := by
  refine ⟨fun v => safe_get_some_iff keys d v, fun n rest => safe_get_idx_head d n rest, ?_, ?_⟩
  · intro fs k rest hd hl
    subst hd
    simp [safe_get, hl]
  · intro k rest h
    cases d with
    | obj fs => exact absurd rfl (h fs)
    | null => cases k <;> rfl
    | str s => cases k <;> rfl
    | arr xs => cases k <;> rfl

/-- C5 witness: the mapping-descent characterization applied at a concrete
nested dictionary. -/
theorem c5_safe_get_mapping_descent_witness :
    ReachesByKeys (.obj [("a", .obj [("b", .str "x")])]) [.str "a", .str "b"] (.str "x") :=
  ((c5_safe_get_mapping_descent (.obj [("a", .obj [("b", .str "x")])])
    [.str "a", .str "b"]).1 (.str "x")).mp rfl

/-- C5 counterexample: an index step into a sequence does not resolve in
`safe_get` (it returns `none`), although under the claimed semantics every
segment of this path resolves to the value `"v"`. -/
theorem c5_index_step_counterexample :
    safe_get (.obj [("a", .arr [.str "v"])]) [.str "a", .idx 0] = none ∧
    safeGetSpecIndexed (.obj [("a", .arr [.str "v"])]) [.str "a", .idx 0] = some (.str "v") :=
  ⟨rfl, rfl⟩

/-- Destructuring an option-bind chain that produced a value. -/
theorem bindE {A B : Type} {x : Option A} {f : A → Option B} {b : B}
    (h : x.bind f = some b) : ∃ a, x = some a ∧ f a = some b := by
  cases x with
  | none => exact absurd h (by simp)
  | some a => exact ⟨a, rfl, h⟩

/-- An option-bind chain fails when its continuation fails on every value. -/
theorem bind_none_of {A B : Type} {x : Option A} {f : A → Option B}
    (h : ∀ a, x = some a → f a = none) : x.bind f = none := by
  cases x with
  | none => rfl
  | some a => exact h a rfl

/-- `lookupJ` after a dict assignment. -/
theorem lookupJ_setK (r : Row) (k k' : String) (v : Json) :
    lookupJ (setK r k' v) k = if k' = k then some v else lookupJ r k := by
  by_cases h : k' = k
  · subst h
    simp [lookupJ_setK_self]
  · simp [h, lookupJ_setK_ne r k k' v h]

/-! ## C1: merge precedence, protocol over card -/

theorem safe_get_protocols_idx (td : Json) (s3 : String) :
    safe_get td [.str "protocols", .idx 0, .str s3] = none := by
  cases td with
  | obj fs =>
    simp only [safe_get]
    cases lookupJ fs "protocols" with
    | none => rfl
    | some v => rfl
  | null => simp [safe_get]
  | str s => simp [safe_get]
  | arr xs => simp [safe_get]

/-- The protocol step is dead code: every section path it reads goes
through the integer index `0`, which `safe_get` never resolves, so all
three truthiness guards see `None` and nothing is written. -/
theorem extract_protocol_data_eq_id (td : Json) (row : Row) :
    extract_protocol_data td row = some row := by
  unfold extract_protocol_data
  rw [safe_get_protocols_idx td "A. Protocol Information",
      safe_get_protocols_idx td "summary",
      safe_get_protocols_idx td "B. Sponsor Information"]
  simp [truthyO]

/-- C1: the claim describes the code's evident intent, but the code never
applies it — `extract_protocol_data` is the identity on the row (its
`safe_get` paths contain the integer index `0`, which `safe_get` cannot
resolve), so for the aggregate `tdC1`, whose card pre-populates status
"ongoing" and whose first attached protocol document carries
`Trial Status = ["completed"]`, a full title, a trial type, a first-entered
date, a country and a sponsor status, the merged row keeps the card's
status and title and leaves study_type, first_posted, locations and
funder_type null. -/
theorem c1_protocol_step_never_overwrites :
    (∀ td row, extract_protocol_data td row = some row) ∧
    (update_record tdC1).bind (fun r => lookupJ r "status") = some (.str "ongoing") ∧
    (update_record tdC1).bind (fun r => lookupJ r "title") = some (.str "A Study") ∧
    (update_record tdC1).bind (fun r => lookupJ r "study_type") = some .null ∧
    (update_record tdC1).bind (fun r => lookupJ r "first_posted") = some .null ∧
    (update_record tdC1).bind (fun r => lookupJ r "locations") = some .null ∧
    (update_record tdC1).bind (fun r => lookupJ r "funder_type") = some .null := by
  exact ⟨extract_protocol_data_eq_id, rfl, rfl, rfl, rfl, rfl, rfl⟩

/-! ## C4: the card step and the unguarded protocol-list access -/

/-- C4 (amended): the card step of `update_record` populates trial_id,
title, url, age, sex, start_date, sponsor, conditions, disease, protocols
and a provisional status taken from the first protocol entry's
`protocol_status`; but when the card's protocol list is empty the `[0]`
access is NOT guarded: the card step raises (IndexError) and fails instead
of treating status as absent. -/
theorem c4_card_step_and_empty_protocols (td card : Json) (row row' : Row) :
    (pyGet td "card" = some card → extract_card_data td row = some row' →
      lookupJ row' "trial_id" = pyGet card "trial_id" ∧
      lookupJ row' "title" = pyGet card "full_title" ∧
      lookupJ row' "url" = pyGet card "trial_results_link" ∧
      lookupJ row' "age" = pyGet card "population_age" ∧
      lookupJ row' "sex" = pyGet card "gender" ∧
      lookupJ row' "start_date" = pyGet card "start_date" ∧
      lookupJ row' "sponsor" = pyGet card "sponsor_name" ∧
      lookupJ row' "conditions" = pyGet card "medical_condition" ∧
      lookupJ row' "disease" = pyGet card "disease" ∧
      lookupJ row' "protocols" = pyGet card "trial_protocols" ∧
      lookupJ row' "status" = (pyGet card "trial_protocols").bind (fun tp =>
        (pyIndex0 tp).bind (fun fp => pyGet fp "protocol_status"))) ∧
    (pyGet td "card" = some card → pyGet card "trial_protocols" = some (.arr []) →
      extract_card_data td row = none) := by
  constructor
  · intro hcard h
    unfold extract_card_data at h
    obtain ⟨c, hc, h⟩ := bindE h
    rw [hcard] at hc
    cases hc
    obtain ⟨v1, h1, h⟩ := bindE h
    obtain ⟨v2, h2, h⟩ := bindE h
    obtain ⟨v3, h3, h⟩ := bindE h
    obtain ⟨v4, h4, h⟩ := bindE h
    obtain ⟨v5, h5, h⟩ := bindE h
    obtain ⟨v6, h6, h⟩ := bindE h
    obtain ⟨v7, h7, h⟩ := bindE h
    obtain ⟨v8, h8, h⟩ := bindE h
    obtain ⟨v9, h9, h⟩ := bindE h
    obtain ⟨tp, htp, h⟩ := bindE h
    obtain ⟨fp, hfp, h⟩ := bindE h
    obtain ⟨st, hst, h⟩ := bindE h
    rw [Option.pure_def, Option.some.injEq] at h
    subst h
    refine ⟨?_, ?_, ?_, ?_, ?_, ?_, ?_, ?_, ?_, ?_, ?_⟩ <;>
      simp [lookupJ_setK, h1, h2, h3, h4, h5, h6, h7, h8, h9, htp, hfp, hst]
  · intro hcard htp
    unfold extract_card_data
    apply bind_none_of; intro c hc
    rw [hcard] at hc
    cases hc
    apply bind_none_of; intro v1 h1
    apply bind_none_of; intro v2 h2
    apply bind_none_of; intro v3 h3
    apply bind_none_of; intro v4 h4
    apply bind_none_of; intro v5 h5
    apply bind_none_of; intro v6 h6
    apply bind_none_of; intro v7 h7
    apply bind_none_of; intro v8 h8
    apply bind_none_of; intro v9 h9
    apply bind_none_of; intro tp htp2
    rw [htp] at htp2
    cases htp2
    rfl

/-- C4 witness: the card step applied to the concrete aggregate `tdC1`
yields the card's fields, including the provisional "ongoing" status. -/
theorem c4_card_step_witness :
    lookupJ ((extract_card_data tdC1 initRow).getD []) "status" = some (.str "ongoing") ∧
    lookupJ ((extract_card_data tdC1 initRow).getD []) "trial_id" = some (.str "2020-001") := by
  have h := (c4_card_step_and_empty_protocols tdC1 cardFull initRow
    ((extract_card_data tdC1 initRow).getD [])).1 rfl rfl
  exact ⟨h.2.2.2.2.2.2.2.2.2.2, h.1⟩

/-- C4 counterexample: with an empty card protocol list the card step (and
with it the whole merge) fails instead of treating status as absent. -/
theorem c4_empty_protocols_counterexample :
    extract_card_data tdEmptyProtocols initRow = none ∧
    update_record tdEmptyProtocols = none :=
  ⟨rfl, rfl⟩

/-! ## C3: current-version selection in the results step -/

/-- Reduction of the monadic bind on a present value. -/
theorem mbind_some {A B : Type} (a : A) (f : A → Option B) :
    (Bind.bind (some a) f : Option B) = f a := rfl

/-- Reduction of the monadic bind on an absent value. -/
theorem mbind_none {A B : Type} (f : A → Option B) :
    (Bind.bind (none : Option A) f : Option B) = none := rfl

theorem lookupJ_isSome_of_mem (fs : List (String × Json)) (k : String)
    (h : k ∈ fs.map Prod.fst) : ∃ v, lookupJ fs k = some v := by
  induction fs with
  | nil => simp at h
  | cons e rest ih =>
    obtain ⟨k', v'⟩ := e
    by_cases hk : k' = k
    · exact ⟨v', by simp [lookupJ, hk]⟩
    · simp [List.map_cons] at h
      rcases h with h | h
      · exact absurd h.symm hk
      · obtain ⟨x, hx⟩ := h
        obtain ⟨v, hv⟩ := ih (List.mem_map.mpr ⟨(k, x), hx, rfl⟩)
        exact ⟨v, by simp [lookupJ, hk, hv]⟩

/-- C3 (amended): the results-extraction step selects `results[key]` where
`key` is the first key of the results mapping containing the substring
"current" (case-sensitive); but when no key of the results mapping contains
"current", the step raises IndexError (the `[0]` on an empty filter
result), failing the whole merge, rather than being a silent no-op. -/
theorem c3_current_version_selection (td : Json) (fs : List (String × Json)) (row : Row) :
    (pyGet td "results" = some (.obj fs) →
      ∀ ck, (fs.map Prod.fst).find? (fun k => strContains k "current") = some ck →
        ∃ current, lookupJ fs ck = some current ∧
          extract_results_data td row = extractCurrentVersion td current row) ∧
    (pyGet td "results" = some (.obj fs) →
      (fs.map Prod.fst).find? (fun k => strContains k "current") = none →
      extract_results_data td row = none) := by
  constructor
  · intro hres ck hfind
    obtain ⟨cur, hcur⟩ := lookupJ_isSome_of_mem fs ck
      (List.mem_of_find?_eq_some hfind)
    refine ⟨cur, hcur, ?_⟩
    unfold extract_results_data
    rw [hres, mbind_some]
    dsimp only
    rw [hfind]
    dsimp only
    rw [hcur, mbind_some]
  · intro hres hfind
    unfold extract_results_data
    rw [hres, mbind_some]
    dsimp only
    rw [hfind]

/-- The current version's data in the two-version fixture. -/
def currentV1 : Json := .obj
  [("summary", .obj [("global_end_date", .arr [.str "2021-06-30"])])]

/-- Results mapping with a current and an archived version key. -/
def fsTwoVersions : List (String × Json) :=
  [("v1_current", currentV1),
   ("v2_archived", .obj [("summary", .obj [("global_end_date", .arr [.str "2020-06-30"])])])]

/-- Trial aggregate with the two-version results document. -/
def tdTwoVersions : Json := .obj
  [("card", cardFull),
   ("trial_id", .str "2020-001"),
   ("protocols", .arr [protDocCompleted]),
   ("results", .obj fsTwoVersions)]

/-- C3 witness: with version keys "v1_current" and "v2_archived" the
selection picks "v1_current"'s data. -/
theorem c3_current_selection_witness :
    extract_results_data tdTwoVersions initRow =
      extractCurrentVersion tdTwoVersions currentV1 initRow := by
  obtain ⟨cur, hcur, heq⟩ :=
    (c3_current_version_selection tdTwoVersions fsTwoVersions initRow).1 rfl
      "v1_current" (by rfl)
  have hV : (some cur : Option Json) = some currentV1 :=
    hcur.symm.trans (rfl : lookupJ fsTwoVersions "v1_current" = some currentV1)
  injection hV with hV2
  rw [heq, hV2]

/-- Trial aggregate whose results mapping has no key containing
"current". -/
def tdNoCurrent : Json := .obj
  [("card", cardFull),
   ("trial_id", .str "2020-001"),
   ("protocols", .arr [protDocCompleted]),
   ("results", .obj
     [("v2_archived", .obj
       [("summary", .obj [("global_end_date", .arr [.str "2020-06-30"])])])])]

/-- C3 counterexample: with a results mapping attached but no key
containing "current", the results step raises (and `update_record` fails)
instead of returning normally with the dependent fields left null. -/
theorem c3_missing_current_counterexample :
    extract_results_data tdNoCurrent initRow = none ∧
    update_record tdNoCurrent = none :=
  ⟨rfl, rfl⟩

/-! ## C2: per-trial error isolation in the orchestrator loop -/

/-- C2 (amended): only failures inside the detail-fetch step
(`get_trial_data`, which catches its own exceptions and returns `None`)
are isolated — such trials are skipped and the loop continues, and when
every fetched aggregate merges without raising, the loop completes and
reports the number of trials with a successful detail fetch out of the
total. An exception inside `update_record` is NOT caught and aborts the
loop. -/
theorem c2_fetch_failures_isolated (cards : List (Option Json))
    (h : ∀ td : Json, some td ∈ cards → (update_record td).isSome = true) :
    scrapeLoop cards = .ok (cards.countP (fun o => o.isSome)) := by
  induction cards with
  | nil => rfl
  | cons c rest ih =>
    have hrest := ih (fun td hm => h td (List.mem_cons_of_mem c hm))
    cases c with
    | none =>
      simpa [scrapeLoop, List.countP_cons] using hrest
    | some td =>
      have hs := h td (List.mem_cons_self _ _)
      obtain ⟨r, hr⟩ := Option.isSome_iff_exists.mp hs
      simp [scrapeLoop, hr, hrest, List.countP_cons]

/-- C2 witness: two trials with failed detail fetches are skipped, the one
fetched trial is merged, and the loop reports one success out of three. -/
theorem c2_fetch_failures_isolated_witness :
    scrapeLoop [none, some tdC1, none] = .ok 1 := by
  have h := c2_fetch_failures_isolated [none, some tdC1, none]
    (by
      intro td hm
      simp at hm
      subst hm
      rfl)
  simpa using h

/-- C2 counterexample: an exception raised inside the merge step
(`update_record`, here an IndexError from an empty card protocol list)
aborts the whole loop: the following, perfectly processable trial is never
reached, where the claim demands it still be processed (`.ok 1`). -/
theorem c2_merge_failure_aborts_loop :
    update_record tdEmptyProtocols = none ∧
    (update_record tdC1).isSome = true ∧
    scrapeLoop [some tdEmptyProtocols, some tdC1] = .error () :=
  ⟨rfl, rfl, rfl⟩

/-! ## C10: the key set of the produced rows -/

theorem copyIfField_keys (src : Json) (sk dk : String) (r r' : Row) (ks : List String)
    (h : copyIfField src sk dk r = some r') (hk : dk ∈ ks)
    (hr : r.map Prod.fst = ks) : r'.map Prod.fst = ks := by
  unfold copyIfField at h
  obtain ⟨b, _hb, h⟩ := bindE h
  cases b with
  | false =>
    rw [if_neg Bool.false_ne_true] at h
    rw [Option.pure_def, Option.some.injEq] at h
    subst h
    exact hr
  | true =>
    rw [if_pos rfl] at h
    obtain ⟨v, _hv, h⟩ := bindE h
    obtain ⟨v2, _hv2, h⟩ := bindE h
    rw [Option.pure_def, Option.some.injEq] at h
    subst h
    exact keys_setK_eq _ _ _ _ hr hk

theorem copyNestedIfField_keys (current : Json) (k1 k2 dk : String) (r r' : Row)
    (ks : List String) (h : copyNestedIfField current k1 k2 dk r = some r')
    (hk : dk ∈ ks) (hr : r.map Prod.fst = ks) : r'.map Prod.fst = ks := by
  unfold copyNestedIfField at h
  obtain ⟨b1, _hb1, h⟩ := bindE h
  cases b1 with
  | false =>
    rw [if_neg Bool.false_ne_true] at h
    rw [Option.pure_def, Option.some.injEq] at h
    subst h
    exact hr
  | true =>
    rw [if_pos rfl] at h
    obtain ⟨ri, _hri, h⟩ := bindE h
    obtain ⟨b2, _hb2, h⟩ := bindE h
    cases b2 with
    | false =>
      rw [if_neg Bool.false_ne_true] at h
      rw [Option.pure_def, Option.some.injEq] at h
      subst h
      exact hr
    | true =>
      rw [if_pos rfl] at h
      obtain ⟨v, _hv, h⟩ := bindE h
      obtain ⟨v2, _hv2, h⟩ := bindE h
      rw [Option.pure_def, Option.some.injEq] at h
      subst h
      exact keys_setK_eq _ _ _ _ hr hk

theorem copyTruthySearch_keys (current : Json) (key dk : String) (r r' : Row)
    (ks : List String) (h : copyTruthySearch current key dk r = some r')
    (hk : dk ∈ ks) (hr : r.map Prod.fst = ks) : r'.map Prod.fst = ks := by
  unfold copyTruthySearch at h
  split at h
  · obtain ⟨v, _hv, h2⟩ := Option.map_eq_some'.mp h
    subst h2
    exact keys_setK_eq _ _ _ _ hr hk
  · rw [Option.some.injEq] at h
    subst h
    exact hr

theorem extract_phase_data_keys (td : Json) (r r' : Row) (ks : List String)
    (h : extract_phase_data td r = some r') (hk : "phases" ∈ ks)
    (hr : r.map Prod.fst = ks) : r'.map Prod.fst = ks := by
  unfold extract_phase_data at h
  cases hcol : collect_keys_with_keyword td "Phase" with
  | none =>
    rw [hcol] at h
    dsimp only at h
    rw [Option.some.injEq] at h
    subst h
    exact hr
  | some l =>
    rw [hcol] at h
    dsimp only at h
    obtain ⟨u, _hu, h2⟩ := Option.map_eq_some'.mp h
    subst h2
    exact keys_setK_eq _ _ _ _ hr hk

theorem extractCurrentVersion_keys (td current : Json) (r r' : Row) (ks : List String)
    (h : extractCurrentVersion td current r = some r')
    (hmem : "completion_date" ∈ ks ∧ "last_update_posted" ∈ ks ∧
      "results_first_posted" ∈ ks ∧ "primary_completion_date" ∈ ks ∧
      "enrollment" ∈ ks ∧ "phases" ∈ ks)
    (hr : r.map Prod.fst = ks) : r'.map Prod.fst = ks := by
  unfold extractCurrentVersion at h
  obtain ⟨sj, _hsj, h⟩ := bindE h
  obtain ⟨r1, h1, h⟩ := bindE h
  obtain ⟨r2, h2, h⟩ := bindE h
  obtain ⟨r3, h3, h⟩ := bindE h
  obtain ⟨r4, h4, h⟩ := bindE h
  obtain ⟨r5, h5, h⟩ := bindE h
  exact extract_phase_data_keys _ _ _ _ h hmem.2.2.2.2.2
    (copyTruthySearch_keys _ _ _ _ _ _ h5 hmem.2.2.2.2.1
      (copyTruthySearch_keys _ _ _ _ _ _ h4 hmem.2.2.2.1
        (copyNestedIfField_keys _ _ _ _ _ _ _ h3 hmem.2.2.1
          (copyNestedIfField_keys _ _ _ _ _ _ _ h2 hmem.2.1
            (copyIfField_keys _ _ _ _ _ _ h1 hmem.1 hr)))))

theorem extract_results_data_keys (td : Json) (r r' : Row) (ks : List String)
    (h : extract_results_data td r = some r')
    (hmem : "completion_date" ∈ ks ∧ "last_update_posted" ∈ ks ∧
      "results_first_posted" ∈ ks ∧ "primary_completion_date" ∈ ks ∧
      "enrollment" ∈ ks ∧ "phases" ∈ ks)
    (hr : r.map Prod.fst = ks) : r'.map Prod.fst = ks := by
  unfold extract_results_data at h
  obtain ⟨res, _hres, h⟩ := bindE h
  cases res with
  | obj fs =>
    dsimp only at h
    cases hf : (fs.map Prod.fst).find? (fun k => strContains k "current") with
    | none =>
      rw [hf] at h
      exact absurd h (by simp)
    | some ck =>
      rw [hf] at h
      dsimp only at h
      obtain ⟨cur, _hcur, h⟩ := bindE h
      exact extractCurrentVersion_keys _ _ _ _ _ h hmem hr
  | null => exact absurd h (by simp)
  | str s => exact absurd h (by simp)
  | arr xs => exact absurd h (by simp)

theorem extract_card_data_keys (td : Json) (r r' : Row)
    (h : extract_card_data td r = some r') (hr : r.map Prod.fst = COLUMNS) :
    r'.map Prod.fst = COLUMNS ++ ["disease"] := by
  unfold extract_card_data at h
  obtain ⟨c, _hc, h⟩ := bindE h
  obtain ⟨v1, _h1, h⟩ := bindE h
  obtain ⟨v2, _h2, h⟩ := bindE h
  obtain ⟨v3, _h3, h⟩ := bindE h
  obtain ⟨v4, _h4, h⟩ := bindE h
  obtain ⟨v5, _h5, h⟩ := bindE h
  obtain ⟨v6, _h6, h⟩ := bindE h
  obtain ⟨v7, _h7, h⟩ := bindE h
  obtain ⟨v8, _h8, h⟩ := bindE h
  obtain ⟨v9, _h9, h⟩ := bindE h
  obtain ⟨tp, _htp, h⟩ := bindE h
  obtain ⟨fp, _hfp, h⟩ := bindE h
  obtain ⟨st, _hst, h⟩ := bindE h
  rw [Option.pure_def, Option.some.injEq] at h
  subst h
  repeat
    first
    | exact hr
    | refine keys_setK_app _ _ _ _ ?_ (by decide)
    | refine keys_setK_eq _ _ _ _ ?_ (by decide)

/-- C10: for every card record accepted by the minimal card-row builder and
every trial aggregate accepted by the full merge, the produced dictionary's
key list is exactly the 31 declared schema columns followed by the one
additional key "disease" — so every declared column is present (possibly
null) and "disease" is a 32nd key outside the declared flat schema. -/
theorem c10_row_key_set (card td : Json) (row row' : Row) :
    (get_trial_data_from_card card = some row →
      row.map Prod.fst = COLUMNS ++ ["disease"]) ∧
    (update_record td = some row' →
      row'.map Prod.fst = COLUMNS ++ ["disease"]) := by
  constructor
  · intro h
    unfold get_trial_data_from_card at h
    obtain ⟨v1, _h1, h⟩ := bindE h
    obtain ⟨v2, _h2, h⟩ := bindE h
    obtain ⟨v3, _h3, h⟩ := bindE h
    obtain ⟨v4, _h4, h⟩ := bindE h
    obtain ⟨v5, _h5, h⟩ := bindE h
    obtain ⟨v6, _h6, h⟩ := bindE h
    obtain ⟨v7, _h7, h⟩ := bindE h
    obtain ⟨v8, _h8, h⟩ := bindE h
    obtain ⟨v9, _h9, h⟩ := bindE h
    obtain ⟨v10, _h10, h⟩ := bindE h
    rw [Option.pure_def, Option.some.injEq] at h
    subst h
    repeat
      first
      | exact initRow_keys
      | refine keys_setK_app _ _ _ _ ?_ (by decide)
      | refine keys_setK_eq _ _ _ _ ?_ (by decide)
  · intro h
    unfold update_record at h
    obtain ⟨r1, hcd, h⟩ := bindE h
    obtain ⟨prot, _hprot, h⟩ := bindE h
    obtain ⟨n, _hn, h⟩ := bindE h
    have hkeys1 : r1.map Prod.fst = COLUMNS ++ ["disease"] :=
      extract_card_data_keys td initRow r1 hcd initRow_keys
    by_cases hz : n = 0
    · rw [if_pos hz] at h
      rw [Option.pure_def, Option.some.injEq] at h
      subst h
      exact hkeys1
    · rw [if_neg hz] at h
      obtain ⟨r2, hp, h⟩ := bindE h
      rw [extract_protocol_data_eq_id, Option.some.injEq] at hp
      subst hp
      cases td with
      | obj fs =>
        dsimp only at h
        by_cases hres : ((fs.map Prod.fst).contains "results") = false
        · rw [if_pos hres] at h
          rw [Option.pure_def, Option.some.injEq] at h
          subst h
          exact hkeys1
        · rw [if_neg hres] at h
          exact extract_results_data_keys _ _ _ _ h
            ⟨by decide, by decide, by decide, by decide, by decide, by decide⟩ hkeys1
      | null => exact absurd h (by simp)
      | str s => exact absurd h (by simp)
      | arr xs => exact absurd h (by simp)

/-- C10 witness: the key lists of the concrete card row for `cardFull` and
of the concrete merged row for `tdC1`. -/
theorem c10_row_key_set_witness :
    ((get_trial_data_from_card cardFull).getD []).map Prod.fst = COLUMNS ++ ["disease"] ∧
    ((update_record tdC1).getD []).map Prod.fst = COLUMNS ++ ["disease"] :=
  ⟨(c10_row_key_set cardFull tdC1 ((get_trial_data_from_card cardFull).getD [])
      ((update_record tdC1).getD [])).1 rfl,
   (c10_row_key_set cardFull tdC1 ((get_trial_data_from_card cardFull).getD [])
      ((update_record tdC1).getD [])).2 rfl⟩

/-! ## C6: the retry engine -/

theorem make_request_backoff_step (url : String) (outcome : Nat → Except String String)
    (k maxAttempts : Nat) (e : String) (hk : k < maxAttempts) (he : outcome k = .error e) :
    make_request url outcome k maxAttempts =
      ((make_request url outcome (k + 1) maxAttempts).1,
        2 ^ k + (make_request url outcome (k + 1) maxAttempts).2) := by
  rw [make_request.eq_def, he]
  simp [hk]

theorem make_request_exhaust_aux (url : String) (outcome : Nat → Except String String)
    (errs : Nat → String) (maxAttempts : Nat) :
    ∀ n a, maxAttempts - a = n → 1 ≤ a → a ≤ maxAttempts →
      (∀ k, a ≤ k → k ≤ maxAttempts → outcome k = .error (errs k)) →
      (make_request url outcome a maxAttempts).1 =
        .error (fetchFailMsg url maxAttempts (errs maxAttempts)) := by
  intro n
  induction n with
  | zero =>
    intro a hn h1 ha hf
    have haeq : a = maxAttempts := by omega
    subst haeq
    rw [make_request.eq_def, hf a le_rfl le_rfl]
    simp
  | succ m ih =>
    intro a hn h1 ha hf
    have hlt : a < maxAttempts := by omega
    rw [make_request.eq_def, hf a le_rfl ha]
    simp only [hlt, dif_pos]
    exact ih (a + 1) (by omega) (by omega) (by omega)
      (fun k hk1 hk2 => hf k (by omega) hk2)

theorem make_request_locality_aux (url : String)
    (outcome outcome' : Nat → Except String String) (maxAttempts : Nat)
    (hagree : ∀ k, k ≤ maxAttempts → outcome k = outcome' k) :
    ∀ n a, maxAttempts - a = n → a ≤ maxAttempts →
      make_request url outcome a maxAttempts = make_request url outcome' a maxAttempts := by
  intro n
  induction n with
  | zero =>
    intro a hn ha
    have haeq : a = maxAttempts := by omega
    subst haeq
    rw [make_request.eq_def]
    conv_rhs => rw [make_request.eq_def]
    rw [hagree a le_rfl]
    cases ho : outcome' a with
    | ok d => rfl
    | error e => simp
  | succ m ih =>
    intro a hn ha
    have hlt : a < maxAttempts := by omega
    rw [make_request.eq_def]
    conv_rhs => rw [make_request.eq_def]
    rw [hagree a (by omega)]
    cases ho : outcome' a with
    | ok d => rfl
    | error e =>
      simp only [hlt, dif_pos]
      rw [ih (a + 1) (by omega) (by omega)]

/-- C6: the retry engine: (i) attempt `k` (1-indexed) that fails with
`k < max_attempts` sleeps `2 ^ k` seconds and becomes attempt `k + 1`;
(ii) a request failing on attempts 1 and 2 and succeeding on attempt 3
returns the successful document with total slept delay `2^1 + 2^2`
seconds; (iii) a request failing on all `max_attempts` attempts raises the
terminal fetch error whose message names the URL and the attempt count
(and carries the last error); (iv) the recursion terminates within
`max_attempts` attempts — its result only depends on the outcomes of
attempts up to `max_attempts`. -/
theorem c6_retry_engine (url : String) (outcome : Nat → Except String String)
    (maxAttempts : Nat) :
    (∀ k e, k < maxAttempts → outcome k = .error e →
      make_request url outcome k maxAttempts =
        ((make_request url outcome (k + 1) maxAttempts).1,
          2 ^ k + (make_request url outcome (k + 1) maxAttempts).2)) ∧
    (∀ d e1 e2, outcome 1 = .error e1 → outcome 2 = .error e2 →
      outcome 3 = .ok d → 3 ≤ maxAttempts →
      make_request url outcome 1 maxAttempts = (.ok d, 2 ^ 1 + 2 ^ 2)) ∧
    (∀ errs : Nat → String, 1 ≤ maxAttempts →
      (∀ k, 1 ≤ k → k ≤ maxAttempts → outcome k = .error (errs k)) →
      (make_request url outcome 1 maxAttempts).1 =
        .error (fetchFailMsg url maxAttempts (errs maxAttempts))) ∧
    (∀ outcome' : Nat → Except String String, 1 ≤ maxAttempts →
      (∀ k, k ≤ maxAttempts → outcome k = outcome' k) →
      make_request url outcome 1 maxAttempts =
        make_request url outcome' 1 maxAttempts) := by
  refine ⟨?_, ?_, ?_, ?_⟩
  · intro k e hk he
    exact make_request_backoff_step url outcome k maxAttempts e hk he
  · intro d e1 e2 h1 h2 hok hmax
    have h3 : make_request url outcome 3 maxAttempts = (.ok d, 0) := by
      rw [make_request.eq_def, hok]
    rw [make_request_backoff_step url outcome 1 maxAttempts e1 (by omega) h1,
        make_request_backoff_step url outcome 2 maxAttempts e2 (by omega) h2, h3]
    rfl
  · intro errs hmax hf
    exact make_request_exhaust_aux url outcome errs maxAttempts
      (maxAttempts - 1) 1 rfl le_rfl hmax hf
  · intro outcome' hmax hagree
    exact make_request_locality_aux url outcome outcome' maxAttempts hagree
      (maxAttempts - 1) 1 rfl hmax

/-- The attempt outcomes used by the C6 witness: attempts 1 and 2 fail,
attempt 3 returns the document. -/
def outcomeW : Nat → Except String String :=
  fun k => if 3 ≤ k then .ok "doc" else .error "boom"

/-- C6 witness: the fail-fail-succeed run returns the document having slept
6 seconds, and the always-failing run raises the terminal message naming
the URL and the 7 attempts. -/
theorem c6_retry_engine_witness :
    make_request "https://reg/search" outcomeW 1 7 = (.ok "doc", 6) ∧
    (make_request "https://reg/search" (fun _ => .error "down") 1 7).1 =
      .error (fetchFailMsg "https://reg/search" 7 "down") := by
  constructor
  · have h := (c6_retry_engine "https://reg/search" outcomeW 7).2.1 "doc" "boom" "boom"
      rfl rfl rfl (by omega)
    simpa using h
  · exact (c6_retry_engine "https://reg/search" (fun _ => .error "down") 7).2.2.1
      (fun _ => "down") (by omega) (fun k h1 h2 => rfl)

/-! ## C7: findFirst semantics of search_for_key -/

theorem noNull_ne_null {r : Json} (h : noNull r = true) : r ≠ .null := by
  intro hr
  subst hr
  simp [noNull] at h

theorem c7_aux : ∀ (n : Nat) (j : Json), sizeOf j ≤ n → ∀ t,
    (noNull j = true → search_for_key j t = (findFirstSpec j t).getD .null) ∧
    (∀ r, noNull j = true → findFirstSpec j t = some r → noNull r = true) ∧
    (findFirstSpec j t = none → search_for_key j t = .null) := by
  intro n
  induction n with
  | zero =>
    intro j hj
    exact absurd hj (by cases j <;> simp)
  | succ m ih =>
    intro j hj t
    cases j with
    | null => simp [search_for_key, findFirstSpec, noNull]
    | str s => simp [search_for_key, findFirstSpec]
    | arr xs =>
      cases xs with
      | nil => simp [search_for_key, findFirstSpec]
      | cons x rest =>
        have hx : sizeOf x ≤ m := by simp at hj; omega
        have hrest : sizeOf (Json.arr rest) ≤ m := by simp at hj ⊢; omega
        have IHx := ih x hx t
        have IHrest := ih (Json.arr rest) hrest t
        simp only [search_for_key, findFirstSpec, noNull, Bool.and_eq_true]
        refine ⟨?_, ?_, ?_⟩
        · rintro ⟨hnx, hnrest⟩
          cases hfx : findFirstSpec x t with
          | none =>
            rw [IHx.2.2 hfx]
            dsimp only
            exact IHrest.1 hnrest
          | some r =>
            have hnr := IHx.2.1 r hnx hfx
            have hs := IHx.1 hnx
            rw [hfx] at hs
            rw [hs]
            cases r with
            | null => exact absurd rfl (noNull_ne_null hnr)
            | str s2 => rfl
            | arr ys => rfl
            | obj gs => rfl
        · rintro r ⟨hnx, hnrest⟩ hfs
          cases hfx : findFirstSpec x t with
          | none =>
            rw [hfx] at hfs
            exact IHrest.2.1 r hnrest hfs
          | some r2 =>
            rw [hfx] at hfs
            cases hfs
            exact IHx.2.1 r hnx hfx
        · intro hfs
          cases hfx : findFirstSpec x t with
          | none =>
            rw [hfx] at hfs
            rw [IHx.2.2 hfx]
            exact IHrest.2.2 hfs
          | some r2 =>
            rw [hfx] at hfs
            cases hfs
    | obj fs =>
      cases fs with
      | nil => simp [search_for_key, findFirstSpec]
      | cons e rest =>
        obtain ⟨k, v⟩ := e
        have hv : sizeOf v ≤ m := by simp at hj; omega
        have hrest : sizeOf (Json.obj rest) ≤ m := by simp at hj ⊢; omega
        have IHv := ih v hv t
        have IHrest := ih (Json.obj rest) hrest t
        by_cases hk : k = t
        · simp only [search_for_key, findFirstSpec, noNull, hk, if_true,
            Bool.and_eq_true]
          refine ⟨?_, ?_, ?_⟩
          · intro _
            rfl
          · rintro r ⟨hnv, _⟩ hfs
            cases hfs
            exact hnv
          · intro hfs
            cases hfs
        · simp only [search_for_key, findFirstSpec, noNull, hk, if_false,
            Bool.and_eq_true]
          refine ⟨?_, ?_, ?_⟩
          · rintro ⟨hnv, hnrest⟩
            cases hfv : findFirstSpec v t with
            | none =>
              rw [IHv.2.2 hfv]
              exact IHrest.1 hnrest
            | some r =>
              have hnr := IHv.2.1 r hnv hfv
              have hs := IHv.1 hnv
              rw [hfv] at hs
              rw [hs]
              cases r with
              | null => exact absurd rfl (noNull_ne_null hnr)
              | str s2 => rfl
              | arr ys => rfl
              | obj gs => rfl
          · rintro r ⟨hnv, hnrest⟩ hfs
            cases hfv : findFirstSpec v t with
            | none =>
              rw [hfv] at hfs
              exact IHrest.2.1 r hnrest hfs
            | some r2 =>
              rw [hfv] at hfs
              cases hfs
              exact IHv.2.1 r hnv hfv
          · intro hfs
            cases hfv : findFirstSpec v t with
            | none =>
              rw [hfv] at hfs
              rw [IHv.2.2 hfv]
              exact IHrest.2.2 hfs
            | some r2 =>
              rw [hfv] at hfs
              cases hfs

/-- C7 (amended): on null-free trees `search_for_key` implements exactly
the claimed depth-first pre-order first-match semantics (`findFirstSpec`,
written from the spec's words), and on every tree with no matching key it
returns absent and never raises (it is total). On trees with null values
the two differ: the code conflates a found null with "not found" (see the
counterexample). -/
theorem c7_find_first_semantics (j : Json) (t : String) :
    (noNull j = true → search_for_key j t = (findFirstSpec j t).getD .null) ∧
    (findFirstSpec j t = none → search_for_key j t = .null) :=
  ⟨(c7_aux (sizeOf j) j le_rfl t).1, (c7_aux (sizeOf j) j le_rfl t).2.2⟩

/-- C7 witness: on a null-free tree where the target key occurs both deep
inside a list-nested mapping (first in pre-order) and at top level, the
code returns the pre-order first match, as the applied theorem states. -/
theorem c7_find_first_semantics_witness :
    search_for_key (.obj [("a", .arr [.obj [("t", .str "x")]]), ("t", .str "y")]) "t" =
      (findFirstSpec (.obj [("a", .arr [.obj [("t", .str "x")]]), ("t", .str "y")]) "t").getD .null :=
  (c7_find_first_semantics (.obj [("a", .arr [.obj [("t", .str "x")]]), ("t", .str "y")]) "t").1
    (by simp [noNull])

/-- C7 counterexample: the first pre-order entry with key "t" has value
null; the claimed semantics returns that value, but the code treats the
null result as "keep looking" and returns the later match "v". -/
theorem c7_null_first_match_counterexample :
    findFirstSpec (.obj [("a", .obj [("t", .null)]), ("b", .obj [("t", .str "v")])]) "t" =
      some .null ∧
    search_for_key (.obj [("a", .obj [("t", .null)]), ("b", .obj [("t", .str "v")])]) "t" =
      .str "v" := by
  constructor
  · simp [findFirstSpec]
  · simp [search_for_key]

/-! ## C8: collect_keys_with_keyword and the phase de-duplication -/

theorem lookupJ_append_of_some (l1 l2 : List (String × Json)) (k : String) (v : Json)
    (h : lookupJ l1 k = some v) : lookupJ (l1 ++ l2) k = some v := by
  induction l1 with
  | nil => simp [lookupJ] at h
  | cons e rest ih =>
    obtain ⟨ek, ev⟩ := e
    by_cases hk : ek = k
    · simpa [lookupJ, hk] using h
    · rw [lookupJ] at h
      rw [if_neg hk] at h
      simpa [lookupJ, hk] using ih h

theorem lookupJ_append_of_none (l1 l2 : List (String × Json)) (k : String)
    (h : lookupJ l1 k = none) : lookupJ (l1 ++ l2) k = lookupJ l2 k := by
  induction l1 with
  | nil => simp
  | cons e rest ih =>
    obtain ⟨ek, ev⟩ := e
    by_cases hk : ek = k
    · simp [lookupJ, hk] at h
    · rw [lookupJ] at h
      rw [if_neg hk] at h
      simpa [lookupJ, hk] using ih h

theorem dedupFirst_lookup (l : List (String × Json)) :
    ∀ acc out, dedupFirst acc l = some out → ∀ k,
      (∀ v, lookupJ acc k = some v → lookupJ out k = some v) ∧
      (lookupJ acc k = none → lookupJ out k = (lookupJ l k).bind pyIndex0) := by
  induction l with
  | nil =>
    intro acc out h k
    unfold dedupFirst at h
    rw [Option.some.injEq] at h
    subst h
    exact ⟨fun v hv => hv, fun hn => by simp [lookupJ, hn]⟩
  | cons e rest ih =>
    intro acc out h k
    obtain ⟨ek, ev⟩ := e
    unfold dedupFirst at h
    by_cases hmem : (lookupJ acc ek).isSome = true
    · rw [if_pos hmem] at h
      have hrec := ih acc out h k
      refine ⟨hrec.1, fun hn => ?_⟩
      have hkne : ek ≠ k := by
        intro hkk
        subst hkk
        rw [hn] at hmem
        simp at hmem
      rw [lookupJ, if_neg hkne]
      exact hrec.2 hn
    · rw [if_neg hmem] at h
      have hacc : lookupJ acc ek = none := by
        cases hc : lookupJ acc ek with
        | none => rfl
        | some w => rw [hc] at hmem; simp at hmem
      cases hpy : pyIndex0 ev with
      | none => rw [hpy] at h; simp at h
      | some v0 =>
        rw [hpy] at h
        have hrec := ih (acc ++ [(ek, v0)]) out h k
        constructor
        · intro v hv
          exact hrec.1 v (lookupJ_append_of_some acc [(ek, v0)] k v hv)
        · intro hn
          by_cases hk : ek = k
          · subst hk
            have hl : lookupJ (acc ++ [(ek, v0)]) ek = some v0 := by
              rw [lookupJ_append_of_none acc [(ek, v0)] ek hacc]
              simp [lookupJ]
            rw [lookupJ, if_pos rfl, Option.some_bind, hpy]
            exact hrec.1 v0 hl
          · have hl : lookupJ (acc ++ [(ek, v0)]) k = none := by
              rw [lookupJ_append_of_none acc [(ek, v0)] k hn]
              simp [lookupJ, hk]
            rw [lookupJ, if_neg hk]
            exact hrec.2 hl

theorem collectGo_eq_filter : ∀ (n : Nat) (j : Json), sizeOf j ≤ n → ∀ kw,
    collectGo j kw = (preorderEntries j).filter (fun e => ciContains e.1 kw) := by
  intro n
  induction n with
  | zero =>
    intro j hj
    exact absurd hj (by cases j <;> simp)
  | succ m ih =>
    intro j hj kw
    cases j with
    | null => simp [collectGo, preorderEntries]
    | str s => simp [collectGo, preorderEntries]
    | arr xs =>
      cases xs with
      | nil => simp [collectGo, preorderEntries]
      | cons x rest =>
        have hx : sizeOf x ≤ m := by simp at hj; omega
        have hrest : sizeOf (Json.arr rest) ≤ m := by simp at hj ⊢; omega
        simp only [collectGo, preorderEntries, List.filter_append]
        rw [ih x hx kw, ih (Json.arr rest) hrest kw]
    | obj fs =>
      cases fs with
      | nil => simp [collectGo, preorderEntries]
      | cons e rest =>
        obtain ⟨k, v⟩ := e
        have hv : sizeOf v ≤ m := by simp at hj; omega
        have hrest : sizeOf (Json.obj rest) ≤ m := by simp at hj ⊢; omega
        simp only [collectGo, preorderEntries, List.filter_cons, List.filter_append]
        rw [ih v hv kw, ih (Json.obj rest) hrest kw]
        by_cases hc : ciContains k kw <;> simp [hc]

/-- C8 (amended): `collect_keys_with_keyword` returns one `{key: value}`
entry per occurrence of a case-insensitively matching mapping key, in
depth-first order, including deeply nested and list-indexed occurrences
(equal to filtering the pre-order entry enumeration), and returns absent
exactly when there is no match; the phase-merge de-duplication keeps, for
each distinct key, the FIRST ELEMENT (`value[0]`) of the first occurrence's
value — not the value itself — discarding later occurrences. -/
theorem c8_collect_and_phase_dedup (j : Json) (kw : String)
    (l out : List (String × Json)) :
    (collectGo j kw = (preorderEntries j).filter (fun e => ciContains e.1 kw)) ∧
    (collect_keys_with_keyword j kw = none ↔
      (preorderEntries j).filter (fun e => ciContains e.1 kw) = []) ∧
    (dedupFirst [] l = some out →
      ∀ k, lookupJ out k = (lookupJ l k).bind pyIndex0) := by
  refine ⟨collectGo_eq_filter (sizeOf j) j le_rfl kw, ?_, ?_⟩
  · unfold collect_keys_with_keyword
    rw [collectGo_eq_filter (sizeOf j) j le_rfl kw]
    cases ((preorderEntries j).filter fun e => ciContains e.1 kw) with
    | nil => simp
    | cons a l2 => simp
  · intro h k
    exact (dedupFirst_lookup l [] out h k).2 rfl

/-- The collected phase entries used by the C8 witness: a repeated key and
a second distinct key matching case-insensitively. -/
def phaseListW : List (String × Json) :=
  [("Phase", .arr [.str "a", .str "b"]),
   ("Phase", .arr [.str "c"]),
   ("phase ii", .arr [.str "d"])]

/-- The aggregate for the C8 counterexample: one "Phase" key whose value is
a two-element list. -/
def tdPhaseTwoElems : Json := .obj [("Phase", .arr [.str "a", .str "b"])]

/-- C8 witness: the de-duplication characterization applied to a concrete
collected list — the repeated key "Phase" keeps the first occurrence
(element 0 of its value) and discards the rest. -/
theorem c8_collect_and_phase_dedup_witness :
    lookupJ ((dedupFirst [] phaseListW).getD []) "Phase" =
      (lookupJ phaseListW "Phase").bind pyIndex0 :=
  (c8_collect_and_phase_dedup tdPhaseTwoElems "Phase" phaseListW
    ((dedupFirst [] phaseListW).getD [])).2.2 rfl "Phase"

/-- C8 counterexample: the collected first occurrence of "Phase" has the
two-element value `["a", "b"]`, but the de-duplicated entry stored in the
row's phases field is `{"Phase": "a"}` — the first element of the value,
not the first occurrence's value `["a", "b"]` as claimed. -/
theorem c8_dedup_value_counterexample :
    collect_keys_with_keyword tdPhaseTwoElems "Phase" =
      some [("Phase", .arr [.str "a", .str "b"])] ∧
    (extract_phase_data tdPhaseTwoElems initRow).bind (fun r => lookupJ r "phases") =
      some (.arr [.obj [("Phase", .str "a")]]) := by
  have hci : ciContains "Phase" "Phase" = true := by rfl
  have h1 : collect_keys_with_keyword tdPhaseTwoElems "Phase" =
      some [("Phase", .arr [.str "a", .str "b"])] := by
    simp [collect_keys_with_keyword, collectGo, tdPhaseTwoElems, hci]
  refine ⟨h1, ?_⟩
  unfold extract_phase_data
  rw [h1]
  rfl

/-! ## C9: the pagination resolver -/

theorem takeWhile_append_all (p : Char → Bool) (l1 l2 : List Char)
    (h1 : ∀ c ∈ l1, p c = true) (h2 : l2.takeWhile p = []) :
    (l1 ++ l2).takeWhile p = l1 := by
  induction l1 with
  | nil => simpa using h2
  | cons c rest ih =>
    rw [List.cons_append, List.takeWhile_cons, if_pos (h1 c (List.mem_cons_self _ _)),
      ih (fun c2 hc2 => h1 c2 (List.mem_cons_of_mem _ hc2))]

theorem takeWhile_digit_litFound (R : List Char) :
    (litFound ++ R).takeWhile Char.isDigit = [] := by
  have h : litFound ++ R = ' ' :: ("result(s) found".toList ++ R) := rfl
  rw [h, List.takeWhile_cons, if_neg (by decide)]

theorem takeWhile_digit_litOf (R : List Char) :
    (litOf ++ R).takeWhile Char.isDigit = [] := by
  have h : litOf ++ R = ' ' :: ("of ".toList ++ R) := rfl
  rw [h, List.takeWhile_cons, if_neg (by decide)]

theorem findPart1_at_start (dN R : List Char)
    (hne : dN ≠ []) (hdig : ∀ c ∈ dN, c.isDigit = true) :
    findPart1 (dN ++ (litFound ++ R)) = some (digitsVal dN, R) := by
  cases dN with
  | nil => exact absurd rfl hne
  | cons c ds =>
    rw [List.cons_append]
    have hrun : (c :: (ds ++ (litFound ++ R))).takeWhile Char.isDigit = c :: ds := by
      have h := takeWhile_append_all Char.isDigit (c :: ds) (litFound ++ R) hdig
        (takeWhile_digit_litFound R)
      rwa [List.cons_append] at h
    have hdrop1 : (c :: (ds ++ (litFound ++ R))).drop (c :: ds).length = litFound ++ R := by
      simp only [List.length_cons, List.drop_succ_cons, List.drop_left]
    have hpre : litFound.isPrefixOf (litFound ++ R) = true :=
      List.isPrefixOf_iff_prefix.mpr (List.prefix_append _ _)
    have hdrop2 : (c :: (ds ++ (litFound ++ R))).drop ((c :: ds).length + litFound.length) = R := by
      have hlen : (c :: ds).length + litFound.length = (ds ++ litFound).length + 1 := by
        simp only [List.length_cons, List.length_append]
        omega
      rw [hlen, List.drop_succ_cons, ← List.append_assoc, List.drop_left]
    simp only [findPart1, hrun, hdrop1, hdrop2, hpre, List.isEmpty_cons, Bool.not_false,
      Bool.and_self, if_true]

theorem part2At_at (mid dP dT : List Char)
    (hPne : dP ≠ []) (hPdig : ∀ c ∈ dP, c.isDigit = true)
    (hTne : dT ≠ []) (hTdig : ∀ c ∈ dT, c.isDigit = true) :
    part2At (mid ++ (litPage ++ (dP ++ (litOf ++ dT)))) mid.length = some (digitsVal dT) := by
  have hPempty : dP.isEmpty = false := by
    cases dP with
    | nil => exact absurd rfl hPne
    | cons p ps => rfl
  have hTempty : dT.isEmpty = false := by
    cases dT with
    | nil => exact absurd rfl hTne
    | cons p ps => rfl
  have hpre1 : litPage.isPrefixOf (litPage ++ (dP ++ (litOf ++ dT))) = true :=
    List.isPrefixOf_iff_prefix.mpr (List.prefix_append _ _)
  have hd1 : (dP ++ (litOf ++ dT)).takeWhile Char.isDigit = dP :=
    takeWhile_append_all _ _ _ hPdig (takeWhile_digit_litOf dT)
  have hpre2 : litOf.isPrefixOf (litOf ++ dT) = true :=
    List.isPrefixOf_iff_prefix.mpr (List.prefix_append _ _)
  have hd2 : (dP ++ (litOf ++ dT)).drop (dP.length + litOf.length) = dT := by
    rw [← List.length_append, ← List.append_assoc, List.drop_left]
  have hTw : dT.takeWhile Char.isDigit = dT := by
    have h := takeWhile_append_all Char.isDigit dT [] hTdig rfl
    simpa using h
  simp only [part2At, List.drop_left, hpre1, hd1, hpre2, hd2, hTw, hPempty, hTempty,
    Bool.not_false, Bool.and_self, if_true]

theorem part2At_none_after (mid dP dT : List Char) (j : Nat)
    (hPdig : ∀ c ∈ dP, c.isDigit = true) (hTdig : ∀ c ∈ dT, c.isDigit = true)
    (hj : mid.length < j) :
    part2At (mid ++ (litPage ++ (dP ++ (litOf ++ dT)))) j = none := by
  obtain ⟨i, rfl⟩ : ∃ i, j = mid.length + (i + 1) := ⟨j - mid.length - 1, by omega⟩
  have hdropj : (mid ++ (litPage ++ (dP ++ (litOf ++ dT)))).drop (mid.length + (i + 1)) =
      (litPage ++ (dP ++ (litOf ++ dT))).drop (i + 1) := by
    rw [← List.drop_drop, List.drop_left]
  have hnotpre : ¬ (litPage.isPrefixOf
      ((litPage ++ (dP ++ (litOf ++ dT))).drop (i + 1)) = true) := by
    intro hcon
    have hmem : 'p' ∈ (litPage ++ (dP ++ (litOf ++ dT))).drop (i + 1) :=
      (List.isPrefixOf_iff_prefix.mp hcon).subset (by decide)
    have hY : litPage ++ (dP ++ (litOf ++ dT)) =
        'p' :: ('a' :: 'g' :: 'e' :: ' ' :: (dP ++ (litOf ++ dT))) := rfl
    rw [hY, List.drop_succ_cons] at hmem
    have hmem2 : 'p' ∈ ('a' :: 'g' :: 'e' :: ' ' :: (dP ++ (litOf ++ dT))) :=
      List.mem_of_mem_drop hmem
    simp only [List.mem_cons, List.mem_append] at hmem2
    rcases hmem2 with h | h | h | h | h | h | h
    · exact absurd h (by decide)
    · exact absurd h (by decide)
    · exact absurd h (by decide)
    · exact absurd h (by decide)
    · exact absurd (hPdig 'p' h) (by decide)
    · exact absurd h (by decide)
    · exact absurd (hTdig 'p' h) (by decide)
  simp only [part2At, hdropj]
  rw [if_neg hnotpre]

theorem getLast_filterMap_range {α : Type} (f : Nat → Option α) (j0 : Nat) (v : α)
    (hj : f j0 = some v) (hafter : ∀ j, j0 < j → f j = none) :
    ∀ n, j0 < n → ((List.range n).filterMap f).getLast? = some v := by
  intro n
  induction n with
  | zero => intro h; exact absurd h (by omega)
  | succ m ih =>
    intro h
    rw [List.range_succ, List.filterMap_append]
    by_cases hm : j0 < m
    · have hfm : f m = none := hafter m hm
      simp only [List.filterMap_cons, hfm, List.filterMap_nil, List.append_nil]
      exact ih hm
    · have hm2 : m = j0 := by omega
      subst hm2
      simp only [List.filterMap_cons, hj, List.filterMap_nil]
      exact List.getLast?_concat _

theorem findPart2_at (mid dP dT : List Char)
    (hPne : dP ≠ []) (hPdig : ∀ c ∈ dP, c.isDigit = true)
    (hTne : dT ≠ []) (hTdig : ∀ c ∈ dT, c.isDigit = true) :
    findPart2 (mid ++ (litPage ++ (dP ++ (litOf ++ dT)))) = some (digitsVal dT) := by
  unfold findPart2
  apply getLast_filterMap_range _ mid.length _
    (part2At_at mid dP dT hPne hPdig hTne hTdig)
    (fun j hj => part2At_none_after mid dP dT j hPdig hTdig hj)
  simp only [List.length_append]
  omega

/-- C9 (amended): the resolver's text normalization first deletes each
non-overlapping pair of consecutive spaces, then strips commas, then
collapses every remaining whitespace run to a single space; for a present
region whose normalized text decomposes as
`<N digits> result(s) found <mid> page <P digits> of <Total digits>` the
resolver returns `(Total, N)`; an absent region, and a region whose
normalized text does not match the pattern, both yield the `NotFound`
signal (`None`), distinct from a fetch error. -/
theorem c9_pagination_resolver (s : String) (dN dP dT mid : List Char)
    (hNne : dN ≠ []) (hNdig : ∀ c ∈ dN, c.isDigit = true)
    (hPne : dP ≠ []) (hPdig : ∀ c ∈ dP, c.isDigit = true)
    (hTne : dT ≠ []) (hTdig : ∀ c ∈ dT, c.isDigit = true)
    (hs : normalizeSummary s =
      dN ++ (litFound ++ (mid ++ (litPage ++ (dP ++ (litOf ++ dT)))))) :
    get_num_pages_and_results (some s) = some (digitsVal dT, digitsVal dN) ∧
    get_num_pages_and_results none = none ∧
    (∀ s2 : String, matchSummary (normalizeSummary s2) = none →
      get_num_pages_and_results (some s2) = none) := by
  refine ⟨?_, rfl, ?_⟩
  · have h1 := findPart1_at_start dN (mid ++ (litPage ++ (dP ++ (litOf ++ dT)))) hNne hNdig
    have h2 := findPart2_at mid dP dT hPne hPdig hTne hTdig
    unfold get_num_pages_and_results
    dsimp only
    rw [hs]
    unfold matchSummary
    rw [h1, mbind_some]
    dsimp only
    rw [h2, mbind_some]
  · intro s2 hm
    unfold get_num_pages_and_results
    dsimp only
    rw [hm]

/-- C9 witness: the spec's worked example, with the "..." gap instantiated
by register text — `"1,234 result(s) found in EudraCT page 1 of 42"`
resolves to `(42, 1234)`. -/
theorem c9_pagination_resolver_witness :
    get_num_pages_and_results (some "1,234 result(s) found in EudraCT page 1 of 42") =
      some (42, 1234) := by
  have h := (c9_pagination_resolver "1,234 result(s) found in EudraCT page 1 of 42"
    ['1', '2', '3', '4'] ['1'] ['4', '2'] (" in EudraCT ".toList)
    (by decide) (by decide) (by decide) (by decide) (by decide) (by decide)
    (by decide)).1
  rw [show digitsVal ['4', '2'] = 42 from rfl,
      show digitsVal ['1', '2', '3', '4'] = 1234 from rfl] at h
  exact h

/-- C9 counterexample: a region with a doubled space between the count and
"result(s)". After the claim's normalization (collapse whitespace, strip
commas) the pattern is present and the claim demands `(42, 1234)`; but the
code deletes the space pair before collapsing, producing
`"1234result(s) ..."`, so the resolver signals NotFound (`None`). -/
theorem c9_double_space_counterexample :
    matchSummary (claimNormalize "1,234  result(s) found in EudraCT page 1 of 42") =
      some (1234, 42) ∧
    get_num_pages_and_results (some "1,234  result(s) found in EudraCT page 1 of 42") =
      none := by
  constructor
  · decide
  · decide

end EUCTR
